import Mathlib

/-!
# SABR Monte-Carlo pricing engine — shallow embedding

Embedding of `option_models/sabr.py` (`ModelABC`, `ModelBsmMC`, `ModelNormalMC`,
`ModelBsmCondMC`, `ModelNormalCondMC`).

Real numbers stand for Python floats.  The standard-normal draws are explicit
inputs `W Z : ℕ → ℕ → ℝ` (first index = time step, second = trajectory), so
every pricing routine is a deterministic function of the realized draws.
Python scalar division (`a / b` on floats) raises `ZeroDivisionError` when
`b == 0`; such fallible operations return `Except String`.  Numpy array
operations never raise on the inputs considered here, so they are plain
functions.  The closed-form pricing kernels `pf.Norm` / `pf.Bsm` live in the
external `pyfeng` package and are abstracted as kernel parameters.
-/

namespace SabrMC

noncomputable section

/-- Model parameters (`ModelABC.__init__`) together with the numerical
configuration (class attributes `dt`, `n_path`). -/
structure Model where
  sigma : ℝ
  vov : ℝ := 0
  rho : ℝ := 0
  beta : ℝ := 1
  intr : ℝ := 0
  dt : ℝ := 1/10
  n_path : ℕ := 10000

/-- `n_dt = int(np.ceil(texp / self.dt))`. -/
def nSteps (dt texp : ℝ) : ℕ := (⌈texp / dt⌉ : ℤ).toNat

/-- `tobs = np.arange(1, n_dt + 1) / n_dt * texp`, entry `k` (0-based):
the equally spaced observation grid. -/
def tobs (texp : ℝ) (n k : ℕ) : ℝ := ((k : ℝ) + 1) / (n : ℝ) * texp

/-- `Z_t = np.cumsum(Z * np.sqrt(dt), axis=0)`: row `k`, trajectory `i`. -/
def cumNoise (Z : ℕ → ℕ → ℝ) (dt : ℝ) (k i : ℕ) : ℝ :=
  ∑ j ∈ Finset.range (k + 1), Z j i * Real.sqrt dt

/-- Entry `(k, i)` of the normalized volatility path built by
`ModelABC.sigma_path`: `exp(vov * (Z_t - vov/2 * tobs))` with a row of ones
inserted at time index 0.  The increments are scaled by the *effective* step
`dt = texp / n_dt`. -/
def sigmaPathEntry (m : Model) (texp : ℝ) (Z : ℕ → ℕ → ℝ) (k i : ℕ) : ℝ :=
  if k = 0 then 1
  else
    Real.exp (m.vov * (cumNoise Z (texp / (nSteps m.dt texp : ℝ)) (k - 1) i
      - m.vov / 2 * tobs texp (nSteps m.dt texp) (k - 1)))

/-- The `(n_dt + 1) × n_path` array returned by `ModelABC.sigma_path`,
as a list of rows. -/
def sigmaPathList (m : Model) (texp : ℝ) (Z : ℕ → ℕ → ℝ) : List (List ℝ) :=
  (List.range (nSteps m.dt texp + 1)).map fun k =>
    (List.range m.n_path).map fun i => sigmaPathEntry m texp Z k i

/-- `ModelABC.sigma_path`.  The line `dt = texp / n_dt` is Python scalar
division and raises `ZeroDivisionError` when `n_dt = 0` (e.g. `texp = 0`). -/
def sigma_path (m : Model) (texp : ℝ) (Z : ℕ → ℕ → ℝ) :
    Except String (List (List ℝ)) :=
  if nSteps m.dt texp = 0 then .error "ZeroDivisionError: float division by zero"
  else .ok (sigmaPathList m texp Z)

/-- Element access `path[t, i]` on the list-of-rows representation. -/
def entryAt (path : List (List ℝ)) (t i : ℕ) : ℝ := (path.getD t []).getD i 0

/-- `weight = np.ones(rows); weight[[0, -1]] = 0.5`: trapezoidal weight at
index `t` of a path with `rows` rows. -/
def trapWeight (rows t : ℕ) : ℝ := if t = 0 ∨ t = rows - 1 then 1/2 else 1

/-- `weight.sum()`. -/
def trapWeightSum (rows : ℕ) : ℝ := ∑ t ∈ Finset.range rows, trapWeight rows t

/-- `ModelABC.intvar_normalized`: per-trajectory normalized integrated
variance `np.sum(weight[:, None] * sigma_path ** 2, axis=0)` with the weights
divided by their sum.  The output length is the column count of the input
(numpy `shape[1]`, here the length of the first row). -/
def intvar_normalized (path : List (List ℝ)) : List ℝ :=
  (List.range (path.headD []).length).map fun i =>
    ∑ t ∈ Finset.range path.length,
      trapWeight path.length t / trapWeightSum path.length * entryAt path t i ^ 2

/-- `W = self.rho * Z + np.sqrt(1 - self.rho**2) * W`: the spot driver
correlated with the volatility driver, used by the direct MC pricers. -/
def corrNoise (m : Model) (W Z : ℕ → ℕ → ℝ) (t i : ℕ) : ℝ :=
  m.rho * Z t i + Real.sqrt (1 - m.rho ^ 2) * W t i

/-- `sigma_t[t, i]` as built inline by `ModelBsmMC.price` / `ModelNormalMC.price`:
`self.sigma * exp(vov * (Z_t - vov/2 * tobs))` with a row of ones at index 0.
Unlike `sigma_path`, the inline construction scales the increments by the
*nominal* `self.dt` (`np.sqrt(self.dt)`), not by the effective step
`texp / n_dt`. -/
def mcSigma (m : Model) (texp : ℝ) (Z : ℕ → ℕ → ℝ) (t i : ℕ) : ℝ :=
  m.sigma *
    (if t = 0 then 1
     else Real.exp (m.vov * (cumNoise Z m.dt (t - 1) i
       - m.vov / 2 * tobs texp (nSteps m.dt texp) (t - 1))))

/-- `np.mean` over the trajectory ensemble `i = 0, …, N-1`. -/
def mcMean (N : ℕ) (f : ℕ → ℝ) : ℝ := (∑ i ∈ Finset.range N, f i) / (N : ℝ)

/-- Terminal spot of trajectory `i` in `ModelBsmMC.price`: Euler scheme on
log-spot, `log_temp += sigma_t[t,i] * W[t,i] * np.sqrt(self.dt)
- 0.5 * sigma_t[t,i]**2 * self.dt`, exponentiated at the end. -/
def bsmTerminalSpot (m : Model) (spot texp : ℝ) (W Z : ℕ → ℕ → ℝ) (i : ℕ) : ℝ :=
  Real.exp (Real.log spot + ∑ t ∈ Finset.range (nSteps m.dt texp),
    (mcSigma m texp Z t i * corrNoise m W Z t i * Real.sqrt m.dt
      - 1/2 * mcSigma m texp Z t i ^ 2 * m.dt))

/-- Price vector of `ModelBsmMC.price`:
`exp(-intr*texp) * np.mean(np.fmax(cp*(S_T - strike[:, None]), 0), axis=1)`. -/
def bsmMCPriceList (m : Model) (strike : List ℝ) (spot texp cp : ℝ)
    (W Z : ℕ → ℕ → ℝ) : List ℝ :=
  strike.map fun K =>
    Real.exp (-m.intr * texp) *
      mcMean m.n_path fun i => max (cp * (bsmTerminalSpot m spot texp W Z i - K)) 0

/-- `ModelBsmMC.price`.  The body performs no scalar division and never calls
`base_model`, so the call always returns normally (for `texp ≤ 0` the ceiling
clamps to `n_dt = 0` and the simulation loop is empty). -/
def bsmMCPrice (m : Model) (strike : List ℝ) (spot texp cp : ℝ)
    (W Z : ℕ → ℕ → ℝ) : Except String (List ℝ) :=
  .ok (bsmMCPriceList m strike spot texp cp W Z)

/-- Terminal spot of trajectory `i` in `ModelNormalMC.price`: additive Euler
scheme, `S_T[k] += sigma_t[t,k] * W[t,k] * np.sqrt(self.dt)`. -/
def normalTerminalSpot (m : Model) (spot texp : ℝ) (W Z : ℕ → ℕ → ℝ) (i : ℕ) : ℝ :=
  spot + ∑ t ∈ Finset.range (nSteps m.dt texp),
    mcSigma m texp Z t i * corrNoise m W Z t i * Real.sqrt m.dt

/-- Price vector of `ModelNormalMC.price`. -/
def normalMCPriceList (m : Model) (strike : List ℝ) (spot texp cp : ℝ)
    (W Z : ℕ → ℕ → ℝ) : List ℝ :=
  strike.map fun K =>
    Real.exp (-m.intr * texp) *
      mcMean m.n_path fun i => max (cp * (normalTerminalSpot m spot texp W Z i - K)) 0

/-- `ModelNormalMC.price`; like `bsmMCPrice` it has no raising operation. -/
def normalMCPrice (m : Model) (strike : List ℝ) (spot texp cp : ℝ)
    (W Z : ℕ → ℕ → ℝ) : Except String (List ℝ) :=
  .ok (normalMCPriceList m strike spot texp cp W Z)

/-- A closed-form flat-volatility pricing kernel
`(vol, strike, spot, texp, cp) ↦ price`; `pf.Norm` and `pf.Bsm` are external
(`pyfeng`), so the conditional pricers are parametrized by the two kernels. -/
def Kernel : Type := ℝ → ℝ → ℝ → ℝ → ℝ → ℝ

/-- `ModelABC.base_model`: dispatch on `beta`, raising
a ValueError carrying the message 0<beta<1 not supported for any `beta` other than 0 and 1. -/
def base_model (normK bsmK : Kernel) (m : Model) : Except String Kernel :=
  if m.beta = 0 then .ok normK
  else if m.beta = 1 then .ok bsmK
  else .error "0<beta<1 not supported"

/-- Python scalar float division: raises `ZeroDivisionError` when the
denominator is zero. -/
def pyDiv (a b : ℝ) : Except String ℝ :=
  if b = 0 then .error "ZeroDivisionError: float division by zero" else .ok (a / b)

/-- `ModelBsmCondMC.price`: conditional MC for the log-normal SABR.
`sigma_t = self.sigma * vol_path[-1, :]` (un-normalized terminal volatility),
`vol = self.sigma * sqrt((1 - rho^2) * I_t)`,
`spot_equiv = spot * exp(rho/vov * (sigma_t - self.sigma)
- rho^2 * sigma^2 * texp/2 * I_t)`, then the base-model prices are averaged
over trajectories.  `self.rho / self.vov` is scalar division. -/
def bsmCondPrice (normK bsmK : Kernel) (m : Model) (strike : List ℝ)
    (spot texp cp : ℝ) (Z : ℕ → ℕ → ℝ) : Except String (List ℝ) :=
  match sigma_path m texp Z with
  | .error e => .error e
  | .ok volPath =>
    let sigmaT : ℕ → ℝ := fun i => m.sigma * entryAt volPath (volPath.length - 1) i
    let It : ℕ → ℝ := fun i => (intvar_normalized volPath).getD i 0
    let vol : ℕ → ℝ := fun i => m.sigma * Real.sqrt ((1 - m.rho ^ 2) * It i)
    match pyDiv m.rho m.vov with
    | .error e => .error e
    | .ok rv =>
      let spotEquiv : ℕ → ℝ := fun i =>
        spot * Real.exp (rv * (sigmaT i - m.sigma)
          - m.rho ^ 2 * m.sigma ^ 2 * texp / 2 * It i)
      match base_model normK bsmK m with
      | .error e => .error e
      | .ok k =>
        .ok (strike.map fun K =>
          mcMean m.n_path fun i => k (vol i) K (spotEquiv i) texp cp)

/-- `ModelNormalCondMC.price`: conditional MC for the normal SABR.
Note that here `sigma_t = vol_path[-1, :]` and `sigma_0 = vol_path[0, :]` are
the *normalized* path values (no `self.sigma` factor, unlike the log-normal
variant), and `spot_equiv = spot + rho/vov * (sigma_t - sigma_0)`. -/
def normalCondPrice (normK bsmK : Kernel) (m : Model) (strike : List ℝ)
    (spot texp cp : ℝ) (Z : ℕ → ℕ → ℝ) : Except String (List ℝ) :=
  match sigma_path m texp Z with
  | .error e => .error e
  | .ok volPath =>
    let sigmaT : ℕ → ℝ := fun i => entryAt volPath (volPath.length - 1) i
    let sigma0 : ℕ → ℝ := fun i => entryAt volPath 0 i
    let It : ℕ → ℝ := fun i => (intvar_normalized volPath).getD i 0
    let vol : ℕ → ℝ := fun i => m.sigma * Real.sqrt ((1 - m.rho ^ 2) * It i)
    match pyDiv m.rho m.vov with
    | .error e => .error e
    | .ok rv =>
      let spotEquiv : ℕ → ℝ := fun i => spot + rv * (sigmaT i - sigma0 i)
      match base_model normK bsmK m with
      | .error e => .error e
      | .ok k =>
        .ok (strike.map fun K =>
          mcMean m.n_path fun i => k (vol i) K (spotEquiv i) texp cp)

/-! ## Basic lemmas about the embedding -/

/-- `getD` on a mapped range evaluates the mapped function. -/
lemma getD_range_map {α : Type*} (f : ℕ → α) {n k : ℕ} (h : k < n) (d : α) :
    ((List.range n).map f).getD k d = f k := by
  rw [List.getD_eq_getElem _ _ (by simpa using h)]
  simp

/-- `texp > 0` and `dt > 0` force at least one time step. -/
lemma nSteps_pos {dt texp : ℝ} (hdt : 0 < dt) (ht : 0 < texp) :
    0 < nSteps dt texp := by
  have h : (0 : ℤ) < ⌈texp / dt⌉ := Int.ceil_pos.mpr (div_pos ht hdt)
  unfold nSteps
  omega

/-- `sigma_path` succeeds whenever the step count is nonzero. -/
lemma sigma_path_ok (m : Model) (texp : ℝ) (Z : ℕ → ℕ → ℝ)
    (h : nSteps m.dt texp ≠ 0) :
    sigma_path m texp Z = .ok (sigmaPathList m texp Z) := by
  unfold sigma_path
  rw [if_neg h]

lemma sigmaPathList_length (m : Model) (texp : ℝ) (Z : ℕ → ℕ → ℝ) :
    (sigmaPathList m texp Z).length = nSteps m.dt texp + 1 := by
  simp [sigmaPathList]

lemma sigmaPathList_row_length (m : Model) (texp : ℝ) (Z : ℕ → ℕ → ℝ) :
    ∀ row ∈ sigmaPathList m texp Z, row.length = m.n_path := by
  intro row hrow
  simp only [sigmaPathList, List.mem_map] at hrow
  obtain ⟨k, -, rfl⟩ := hrow
  simp

lemma entryAt_sigmaPathList (m : Model) (texp : ℝ) (Z : ℕ → ℕ → ℝ) {k i : ℕ}
    (hk : k < nSteps m.dt texp + 1) (hi : i < m.n_path) :
    entryAt (sigmaPathList m texp Z) k i = sigmaPathEntry m texp Z k i := by
  unfold entryAt sigmaPathList
  rw [getD_range_map _ hk, getD_range_map _ hi]

lemma headD_sigmaPathList_length (m : Model) (texp : ℝ) (Z : ℕ → ℕ → ℝ) :
    ((sigmaPathList m texp Z).headD []).length = m.n_path := by
  unfold sigmaPathList
  rw [List.range_succ_eq_map]
  simp

/-- The trapezoidal weights over `n + 1` grid points sum to `n`. -/
lemma trapWeightSum_eq {n : ℕ} (hn : 1 ≤ n) : trapWeightSum (n + 1) = n := by
  unfold trapWeightSum
  have key : ∀ t ∈ Finset.range (n + 1),
      trapWeight (n + 1) t
        = 1 - (if t = 0 then (1:ℝ)/2 else 0) - (if t = n then (1:ℝ)/2 else 0) := by
    intro t ht
    unfold trapWeight
    simp only [Nat.add_sub_cancel]
    rcases eq_or_ne t 0 with h0 | h0 <;> rcases eq_or_ne t n with h1 | h1
    · omega
    · subst h0
      rw [if_pos (Or.inl rfl), if_pos rfl, if_neg (by omega : ¬(0:ℕ) = n)]
      norm_num
    · subst h1
      rw [if_pos (Or.inr rfl), if_neg h0, if_pos rfl]
      norm_num
    · rw [if_neg (not_or.mpr ⟨h0, h1⟩), if_neg h0, if_neg h1]
      norm_num
  rw [Finset.sum_congr rfl key]
  rw [Finset.sum_sub_distrib, Finset.sum_sub_distrib,
    Finset.sum_ite_eq' (Finset.range (n + 1)) 0 (fun _ => (1:ℝ)/2),
    Finset.sum_ite_eq' (Finset.range (n + 1)) n (fun _ => (1:ℝ)/2),
    if_pos (Finset.mem_range.mpr (by omega)),
    if_pos (Finset.mem_range.mpr (by omega))]
  simp only [Finset.sum_const, Finset.card_range, nsmul_eq_mul, mul_one]
  push_cast
  ring

lemma trapWeight_nonneg (rows t : ℕ) : 0 ≤ trapWeight rows t := by
  unfold trapWeight
  split <;> norm_num

lemma intvar_normalized_length (path : List (List ℝ)) :
    (intvar_normalized path).length = (path.headD []).length := by
  simp [intvar_normalized]

lemma intvar_normalized_getD (path : List (List ℝ)) {i : ℕ}
    (hi : i < (path.headD []).length) :
    (intvar_normalized path).getD i 0
      = ∑ t ∈ Finset.range path.length,
          trapWeight path.length t / trapWeightSum path.length
            * entryAt path t i ^ 2 := by
  unfold intvar_normalized
  rw [getD_range_map _ hi]

/-! ## Evaluation lemmas for the fallible operations -/

lemma pyDiv_ok {a b : ℝ} (hb : b ≠ 0) : pyDiv a b = .ok (a / b) := by
  unfold pyDiv
  rw [if_neg hb]

lemma pyDiv_zero (a : ℝ) :
    pyDiv a 0 = .error "ZeroDivisionError: float division by zero" := by
  unfold pyDiv
  rw [if_pos rfl]

lemma base_model_beta_zero (normK bsmK : Kernel) {m : Model} (hb : m.beta = 0) :
    base_model normK bsmK m = .ok normK := by
  unfold base_model
  rw [hb, if_pos rfl]

lemma base_model_beta_one (normK bsmK : Kernel) {m : Model} (hb : m.beta = 1) :
    base_model normK bsmK m = .ok bsmK := by
  unfold base_model
  rw [hb, if_neg one_ne_zero, if_pos rfl]

lemma base_model_mid_beta (normK bsmK : Kernel) {m : Model}
    (h0 : 0 < m.beta) (h1 : m.beta < 1) :
    base_model normK bsmK m = .error "0<beta<1 not supported" := by
  unfold base_model
  rw [if_neg h0.ne', if_neg h1.ne]

/-- `ModelBsmCondMC.price` on the happy path, with all three fallible steps
resolved. -/
lemma bsmCondPrice_eq_ok (normK bsmK : Kernel) {m : Model} {texp : ℝ}
    {Z : ℕ → ℕ → ℝ} {p : List (List ℝ)} {rv : ℝ} {k : Kernel}
    (hp : sigma_path m texp Z = .ok p) (hrv : pyDiv m.rho m.vov = .ok rv)
    (hk : base_model normK bsmK m = .ok k) (strike : List ℝ) (spot cp : ℝ) :
    bsmCondPrice normK bsmK m strike spot texp cp Z
      = .ok (strike.map fun K => mcMean m.n_path fun i =>
          k (m.sigma * Real.sqrt ((1 - m.rho ^ 2) * (intvar_normalized p).getD i 0))
            K
            (spot * Real.exp (rv * (m.sigma * entryAt p (p.length - 1) i - m.sigma)
              - m.rho ^ 2 * m.sigma ^ 2 * texp / 2 * (intvar_normalized p).getD i 0))
            texp cp) := by
  unfold bsmCondPrice
  rw [hp, hrv, hk]

/-- `ModelNormalCondMC.price` on the happy path. -/
lemma normalCondPrice_eq_ok (normK bsmK : Kernel) {m : Model} {texp : ℝ}
    {Z : ℕ → ℕ → ℝ} {p : List (List ℝ)} {rv : ℝ} {k : Kernel}
    (hp : sigma_path m texp Z = .ok p) (hrv : pyDiv m.rho m.vov = .ok rv)
    (hk : base_model normK bsmK m = .ok k) (strike : List ℝ) (spot cp : ℝ) :
    normalCondPrice normK bsmK m strike spot texp cp Z
      = .ok (strike.map fun K => mcMean m.n_path fun i =>
          k (m.sigma * Real.sqrt ((1 - m.rho ^ 2) * (intvar_normalized p).getD i 0))
            K
            (spot + rv * (entryAt p (p.length - 1) i - entryAt p 0 i))
            texp cp) := by
  unfold normalCondPrice
  rw [hp, hrv, hk]

lemma bsmCondPrice_path_error (normK bsmK : Kernel) {m : Model} {texp : ℝ}
    {Z : ℕ → ℕ → ℝ} {e : String} (hp : sigma_path m texp Z = .error e)
    (strike : List ℝ) (spot cp : ℝ) :
    bsmCondPrice normK bsmK m strike spot texp cp Z = .error e := by
  unfold bsmCondPrice
  rw [hp]

lemma normalCondPrice_path_error (normK bsmK : Kernel) {m : Model} {texp : ℝ}
    {Z : ℕ → ℕ → ℝ} {e : String} (hp : sigma_path m texp Z = .error e)
    (strike : List ℝ) (spot cp : ℝ) :
    normalCondPrice normK bsmK m strike spot texp cp Z = .error e := by
  unfold normalCondPrice
  rw [hp]

lemma bsmCondPrice_div_error (normK bsmK : Kernel) {m : Model} {texp : ℝ}
    {Z : ℕ → ℕ → ℝ} {p : List (List ℝ)} {e : String}
    (hp : sigma_path m texp Z = .ok p) (hrv : pyDiv m.rho m.vov = .error e)
    (strike : List ℝ) (spot cp : ℝ) :
    bsmCondPrice normK bsmK m strike spot texp cp Z = .error e := by
  unfold bsmCondPrice
  rw [hp, hrv]

lemma normalCondPrice_div_error (normK bsmK : Kernel) {m : Model} {texp : ℝ}
    {Z : ℕ → ℕ → ℝ} {p : List (List ℝ)} {e : String}
    (hp : sigma_path m texp Z = .ok p) (hrv : pyDiv m.rho m.vov = .error e)
    (strike : List ℝ) (spot cp : ℝ) :
    normalCondPrice normK bsmK m strike spot texp cp Z = .error e := by
  unfold normalCondPrice
  rw [hp, hrv]

lemma bsmCondPrice_base_error (normK bsmK : Kernel) {m : Model} {texp : ℝ}
    {Z : ℕ → ℕ → ℝ} {p : List (List ℝ)} {rv : ℝ} {e : String}
    (hp : sigma_path m texp Z = .ok p) (hrv : pyDiv m.rho m.vov = .ok rv)
    (hk : base_model normK bsmK m = .error e) (strike : List ℝ) (spot cp : ℝ) :
    bsmCondPrice normK bsmK m strike spot texp cp Z = .error e := by
  unfold bsmCondPrice
  rw [hp, hrv, hk]

lemma normalCondPrice_base_error (normK bsmK : Kernel) {m : Model} {texp : ℝ}
    {Z : ℕ → ℕ → ℝ} {p : List (List ℝ)} {rv : ℝ} {e : String}
    (hp : sigma_path m texp Z = .ok p) (hrv : pyDiv m.rho m.vov = .ok rv)
    (hk : base_model normK bsmK m = .error e) (strike : List ℝ) (spot cp : ℝ) :
    normalCondPrice normK bsmK m strike spot texp cp Z = .error e := by
  unfold normalCondPrice
  rw [hp, hrv, hk]

/-! ## Direct-pricer helpers -/

lemma bsmMCPriceList_getD (m : Model) (strike : List ℝ) (spot texp cp : ℝ)
    (W Z : ℕ → ℕ → ℝ) {j : ℕ} (hj : j < strike.length) :
    (bsmMCPriceList m strike spot texp cp W Z).getD j 0
      = Real.exp (-m.intr * texp) * mcMean m.n_path fun i =>
          max (cp * (bsmTerminalSpot m spot texp W Z i - strike.getD j 0)) 0 := by
  unfold bsmMCPriceList
  rw [List.getD_eq_getElem _ _ (by simpa using hj), List.getElem_map,
    ← List.getD_eq_getElem strike 0 hj]

lemma normalMCPriceList_getD (m : Model) (strike : List ℝ) (spot texp cp : ℝ)
    (W Z : ℕ → ℕ → ℝ) {j : ℕ} (hj : j < strike.length) :
    (normalMCPriceList m strike spot texp cp W Z).getD j 0
      = Real.exp (-m.intr * texp) * mcMean m.n_path fun i =>
          max (cp * (normalTerminalSpot m spot texp W Z i - strike.getD j 0)) 0 := by
  unfold normalMCPriceList
  rw [List.getD_eq_getElem _ _ (by simpa using hj), List.getElem_map,
    ← List.getD_eq_getElem strike 0 hj]

/-- Payoff cancellation behind put-call parity: with a shared ensemble the
clamped call and put payoffs recombine into the forward. -/
lemma mcMean_parity {N : ℕ} (hN : 0 < N) (S : ℕ → ℝ) (K : ℝ) :
    mcMean N (fun i => max (1 * (S i - K)) 0)
      - mcMean N (fun i => max ((-1) * (S i - K)) 0)
      = mcMean N S - K := by
  have hNR : (N : ℝ) ≠ 0 := Nat.cast_ne_zero.mpr hN.ne'
  unfold mcMean
  rw [div_sub_div_same, ← Finset.sum_sub_distrib]
  have hterm : ∀ i, max (1 * (S i - K)) 0 - max ((-1) * (S i - K)) 0 = S i - K := by
    intro i
    rw [one_mul, neg_one_mul]
    exact max_zero_sub_max_neg_zero_eq_self _
  rw [Finset.sum_congr rfl fun i _ => hterm i, Finset.sum_sub_distrib,
    Finset.sum_const, Finset.card_range, nsmul_eq_mul, sub_div,
    mul_div_cancel_left₀ K hNR]

lemma getD_map_nonneg (l : List ℝ) (f : ℝ → ℝ) (h : ∀ x, 0 ≤ f x) (j : ℕ) :
    0 ≤ (l.map f).getD j 0 := by
  induction l generalizing j with
  | nil => simp
  | cons a t ih =>
    cases j with
    | zero => simpa using h a
    | succ j => simpa using ih j

/-! ## Claims -/

/-- C7: for `T > 0`, `Δt > 0` and `N > 0`, `sigma_path` returns an array
of shape `(n_steps + 1, N)` with `n_steps = ⌈T/Δt⌉`, the observation grid is
equally spaced with step `T / n_steps` and final point exactly `T`, and the
row at time index 0 is identically 1. -/
theorem sigma_path_shape_grid_init (m : Model) (texp : ℝ) (Z : ℕ → ℕ → ℝ)
    (hdt : 0 < m.dt) (ht : 0 < texp) (hN : 0 < m.n_path) :
    ∃ p, sigma_path m texp Z = .ok p
      ∧ p.length = nSteps m.dt texp + 1
      ∧ (∀ row ∈ p, row.length = m.n_path)
      ∧ (∀ k, k + 1 < nSteps m.dt texp →
          tobs texp (nSteps m.dt texp) (k + 1) - tobs texp (nSteps m.dt texp) k
            = texp / (nSteps m.dt texp : ℝ))
      ∧ tobs texp (nSteps m.dt texp) (nSteps m.dt texp - 1) = texp
      ∧ (∀ i < m.n_path, entryAt p 0 i = 1) := by
  have hn : 0 < nSteps m.dt texp := nSteps_pos hdt ht
  have hnR : (nSteps m.dt texp : ℝ) ≠ 0 := Nat.cast_ne_zero.mpr hn.ne'
  refine ⟨sigmaPathList m texp Z, sigma_path_ok m texp Z hn.ne',
    sigmaPathList_length m texp Z, sigmaPathList_row_length m texp Z, ?_, ?_, ?_⟩
  · intro k hk
    unfold tobs
    push_cast
    field_simp
    ring
  · unfold tobs
    rw [Nat.cast_sub hn]
    push_cast
    field_simp
  · intro i hi
    rw [entryAt_sigmaPathList m texp Z (by omega) hi]
    unfold sigmaPathEntry
    rw [if_pos rfl]

/-- Witness for C7 at `T = 1`, `Δt = 1`, `N = 2`. -/
theorem sigma_path_shape_grid_init_witness :
    ∃ p, sigma_path { sigma := 1, dt := 1, n_path := 2 } 1 (fun _ _ => 0) = .ok p
      ∧ p.length = nSteps 1 1 + 1
      ∧ (∀ i < 2, entryAt p 0 i = 1) := by
  obtain ⟨p, h1, h2, -, -, -, h6⟩ :=
    sigma_path_shape_grid_init { sigma := 1, dt := 1, n_path := 2 } 1
      (fun _ _ => 0) zero_lt_one zero_lt_one (by decide)
  exact ⟨p, h1, h2, h6⟩

/-- C8: on a path of shape `(n + 1, N)` with `n ≥ 1`, `intvar_normalized`
returns the length-`N` vector whose `k`-th entry is the trapezoid-weighted sum
of squared path values divided by the weight sum `n`; every entry is
nonnegative, and for `n = 1` the normalized weights are `1/2, 1/2`. -/
theorem intvar_normalized_trapezoid (path : List (List ℝ)) (n N : ℕ)
    (hn : 1 ≤ n) (hlen : path.length = n + 1) (hN : (path.headD []).length = N)
    (k : ℕ) (hk : k < N) :
    (intvar_normalized path).length = N
    ∧ (intvar_normalized path).getD k 0
        = (∑ t ∈ Finset.range (n + 1),
            (if t = 0 ∨ t = n then (1:ℝ)/2 else 1) * entryAt path t k ^ 2) / n
    ∧ 0 ≤ (intvar_normalized path).getD k 0
    ∧ (n = 1 → (intvar_normalized path).getD k 0
        = 1/2 * entryAt path 0 k ^ 2 + 1/2 * entryAt path 1 k ^ 2) := by
  have hkN : k < (path.headD []).length := hN ▸ hk
  have hform : (intvar_normalized path).getD k 0
      = (∑ t ∈ Finset.range (n + 1),
          (if t = 0 ∨ t = n then (1:ℝ)/2 else 1) * entryAt path t k ^ 2) / n := by
    rw [intvar_normalized_getD path hkN, hlen, trapWeightSum_eq hn,
      Finset.sum_div]
    refine Finset.sum_congr rfl fun t ht => ?_
    unfold trapWeight
    rw [Nat.add_sub_cancel, div_mul_eq_mul_div]
  refine ⟨by rw [intvar_normalized_length, hN], hform, ?_, ?_⟩
  · rw [intvar_normalized_getD path hkN]
    refine Finset.sum_nonneg fun t ht => ?_
    refine mul_nonneg (div_nonneg (trapWeight_nonneg _ _) ?_) (sq_nonneg _)
    rw [hlen, trapWeightSum_eq hn]
    exact Nat.cast_nonneg n
  · intro h1
    subst h1
    rw [hform, Finset.sum_range_succ, Finset.sum_range_one]
    norm_num

/-- Witness for C8 on the concrete path `[[2], [3]]` (`n = 1`, `N = 1`). -/
theorem intvar_normalized_trapezoid_witness :
    (1:ℕ) ≤ 1
    ∧ ([[(2:ℝ)], [3]] : List (List ℝ)).length = 1 + 1
    ∧ 0 ≤ (intvar_normalized [[(2:ℝ)], [3]]).getD 0 0 :=
  ⟨le_rfl, rfl,
    (intvar_normalized_trapezoid [[(2:ℝ)], [3]] 1 1 le_rfl rfl rfl 0
      (by decide)).2.2.1⟩

/-- C10: every component of the price vector of the two Direct MC pricers
is nonnegative: the per-trajectory payoffs are clamped at 0 and the discount
factor is positive. -/
theorem directMC_price_nonneg (m : Model) (strike : List ℝ) (spot texp cp : ℝ)
    (W Z : ℕ → ℕ → ℝ) (j : ℕ) :
    0 ≤ (bsmMCPriceList m strike spot texp cp W Z).getD j 0
    ∧ 0 ≤ (normalMCPriceList m strike spot texp cp W Z).getD j 0 := by
  constructor <;>
  · apply getD_map_nonneg
    intro K
    refine mul_nonneg (Real.exp_pos _).le ?_
    unfold mcMean
    exact div_nonneg (Finset.sum_nonneg fun i _ => le_max_right _ 0)
      (Nat.cast_nonneg _)

/-- C9: put-call parity for the Direct MC pricers.  With a shared
realization of the draws `(W, Z)`, call price minus put price equals
`exp(-r·T) * (mean terminal spot - strike)` componentwise, for both the
log-normal and the normal variant. -/
theorem directMC_put_call_parity (m : Model) (strike : List ℝ) (spot texp : ℝ)
    (W Z : ℕ → ℕ → ℝ) (hN : 0 < m.n_path) (j : ℕ) (hj : j < strike.length) :
    (bsmMCPriceList m strike spot texp 1 W Z).getD j 0
      - (bsmMCPriceList m strike spot texp (-1) W Z).getD j 0
      = Real.exp (-m.intr * texp)
        * (mcMean m.n_path (bsmTerminalSpot m spot texp W Z) - strike.getD j 0)
    ∧ (normalMCPriceList m strike spot texp 1 W Z).getD j 0
      - (normalMCPriceList m strike spot texp (-1) W Z).getD j 0
      = Real.exp (-m.intr * texp)
        * (mcMean m.n_path (normalTerminalSpot m spot texp W Z) - strike.getD j 0) := by
  constructor
  · rw [bsmMCPriceList_getD m strike spot texp 1 W Z hj,
      bsmMCPriceList_getD m strike spot texp (-1) W Z hj, ← mul_sub,
      mcMean_parity hN]
  · rw [normalMCPriceList_getD m strike spot texp 1 W Z hj,
      normalMCPriceList_getD m strike spot texp (-1) W Z hj, ← mul_sub,
      mcMean_parity hN]

/-- Witness for C9: one trajectory, zero draws, strike 0. -/
theorem directMC_put_call_parity_witness :
    (0:ℕ) < 1
    ∧ (bsmMCPriceList { sigma := 1, dt := 1, n_path := 1 } [0] 1 1 1
          (fun _ _ => 0) (fun _ _ => 0)).getD 0 0
        - (bsmMCPriceList { sigma := 1, dt := 1, n_path := 1 } [0] 1 1 (-1)
            (fun _ _ => 0) (fun _ _ => 0)).getD 0 0
      = Real.exp (-({ sigma := 1, dt := 1, n_path := 1 } : Model).intr * 1)
        * (mcMean 1 (bsmTerminalSpot { sigma := 1, dt := 1, n_path := 1 } 1 1
            (fun _ _ => 0) (fun _ _ => 0)) - ([(0:ℝ)]).getD 0 0) :=
  ⟨by decide,
    (directMC_put_call_parity { sigma := 1, dt := 1, n_path := 1 } [0] 1 1
      (fun _ _ => 0) (fun _ _ => 0) (by decide) 0 (by decide)).1⟩

/-- C3: on either conditional MC pricer, `vov = 0` makes the scalar
division `self.rho / self.vov` raise `ZeroDivisionError`: the call fails
rather than silently producing NaN. -/
theorem condMC_vov_zero_raises (normK bsmK : Kernel) (m : Model)
    (strike : List ℝ) (spot texp cp : ℝ) (Z : ℕ → ℕ → ℝ)
    (hv : m.vov = 0) (hdt : 0 < m.dt) (ht : 0 < texp) :
    bsmCondPrice normK bsmK m strike spot texp cp Z
        = .error "ZeroDivisionError: float division by zero"
    ∧ normalCondPrice normK bsmK m strike spot texp cp Z
        = .error "ZeroDivisionError: float division by zero" := by
  have hn : nSteps m.dt texp ≠ 0 := (nSteps_pos hdt ht).ne'
  have hdiv : pyDiv m.rho m.vov
      = .error "ZeroDivisionError: float division by zero" := by
    rw [hv]
    exact pyDiv_zero m.rho
  exact ⟨bsmCondPrice_div_error normK bsmK (sigma_path_ok m texp Z hn) hdiv
      strike spot cp,
    normalCondPrice_div_error normK bsmK (sigma_path_ok m texp Z hn) hdiv
      strike spot cp⟩

/-- Witness for C3 at a concrete model with `vov = 0`. -/
theorem condMC_vov_zero_raises_witness :
    ({ sigma := 1, vov := 0, dt := 1, n_path := 1 } : Model).vov = 0
    ∧ bsmCondPrice (fun _ _ _ _ _ => 0) (fun _ _ _ _ _ => 0)
        { sigma := 1, vov := 0, dt := 1, n_path := 1 } [1] 1 1 1 (fun _ _ => 0)
      = .error "ZeroDivisionError: float division by zero" :=
  ⟨rfl,
    (condMC_vov_zero_raises (fun _ _ _ _ _ => 0) (fun _ _ _ _ _ => 0)
      { sigma := 1, vov := 0, dt := 1, n_path := 1 } [1] 1 1 1 (fun _ _ => 0)
      rfl zero_lt_one zero_lt_one).1⟩

/-- A trivial closed-form kernel, used to instantiate witnesses. -/
def zeroKernel : Kernel := fun _ _ _ _ _ => 0

/-- The all-zero draw array, used to instantiate witnesses. -/
def zeroDraws : ℕ → ℕ → ℝ := fun _ _ => 0

/-- C6: on the log-normal conditional pricer with `vov ≠ 0` and `beta = 1`,
each trajectory gets effective volatility `sigma * sqrt((1 - rho^2) * I_t)` and
equivalent spot `spot * exp(rho/vov * (sigma_T - sigma) - rho^2 sigma^2 T/2 * I_t)`
with `sigma_T` the un-normalized terminal path value
(`sigma * sigmaPathEntry` at time index `n_steps`), and the price per strike is
the trajectory average of the base-model price at
`(strike, spot_equiv, vol_eff, T, cp)`. -/
theorem bsmCondMC_price_formula (normK bsmK : Kernel) (m : Model)
    (strike : List ℝ) (spot texp cp : ℝ) (Z : ℕ → ℕ → ℝ)
    (hdt : 0 < m.dt) (ht : 0 < texp) (hv : m.vov ≠ 0) (hb : m.beta = 1) :
    bsmCondPrice normK bsmK m strike spot texp cp Z
      = .ok (strike.map fun K => mcMean m.n_path fun i =>
          bsmK
            (m.sigma * Real.sqrt ((1 - m.rho ^ 2)
              * (intvar_normalized (sigmaPathList m texp Z)).getD i 0))
            K
            (spot * Real.exp (m.rho / m.vov
                * (m.sigma * entryAt (sigmaPathList m texp Z) (nSteps m.dt texp) i
                  - m.sigma)
              - m.rho ^ 2 * m.sigma ^ 2 * texp / 2
                * (intvar_normalized (sigmaPathList m texp Z)).getD i 0))
            texp cp) := by
  have hn : nSteps m.dt texp ≠ 0 := (nSteps_pos hdt ht).ne'
  rw [bsmCondPrice_eq_ok normK bsmK (sigma_path_ok m texp Z hn) (pyDiv_ok hv)
    (base_model_beta_one normK bsmK hb) strike spot cp]
  simp only [sigmaPathList_length, Nat.add_sub_cancel]

/-- Witness model for C6. -/
def mC6 : Model :=
  { sigma := 1, vov := 1, rho := 0, beta := 1, intr := 0, dt := 1, n_path := 1 }

/-- Witness for C6 at a concrete model and draws. -/
theorem bsmCondMC_price_formula_witness :
    mC6.beta = 1
    ∧ bsmCondPrice zeroKernel zeroKernel mC6 [1] 1 1 1 zeroDraws
      = .ok (([1] : List ℝ).map fun K => mcMean mC6.n_path fun i =>
          zeroKernel
            (mC6.sigma * Real.sqrt ((1 - mC6.rho ^ 2)
              * (intvar_normalized (sigmaPathList mC6 1 zeroDraws)).getD i 0))
            K
            (1 * Real.exp (mC6.rho / mC6.vov
                * (mC6.sigma * entryAt (sigmaPathList mC6 1 zeroDraws) (nSteps mC6.dt 1) i
                  - mC6.sigma)
              - mC6.rho ^ 2 * mC6.sigma ^ 2 * 1 / 2
                * (intvar_normalized (sigmaPathList mC6 1 zeroDraws)).getD i 0))
            1 1) :=
  ⟨rfl, bsmCondMC_price_formula zeroKernel zeroKernel mC6 [1] 1 1 1 zeroDraws
    zero_lt_one zero_lt_one one_ne_zero rfl⟩

/-- A model with skew parameter strictly between 0 and 1. -/
def mHalf : Model :=
  { sigma := 1, vov := 0, rho := 0, beta := 1/2, intr := 0, dt := 1, n_path := 1 }

/-- C4 counterexample: with `beta = 1/2` the direct log-normal MC pricing
call does not fail — it never consults `beta` and returns an ordinary price
(here `exp(-1/2)` for strike 0, unit spot/maturity and zero draws). -/
theorem beta_half_directMC_succeeds :
    mHalf.beta = 1/2
    ∧ bsmMCPrice mHalf [0] 1 1 1 zeroDraws zeroDraws
        = .ok [Real.exp (-(1/2))] := by
  refine ⟨rfl, ?_⟩
  have hstep : nSteps ((1:ℝ)) 1 = 1 := by
    unfold nSteps
    norm_num
  have hT : bsmTerminalSpot mHalf 1 1 zeroDraws zeroDraws 0 = Real.exp (-(1/2)) := by
    unfold bsmTerminalSpot mcSigma corrNoise
    norm_num [mHalf, zeroDraws, hstep, Finset.sum_range_one, Real.log_one]
  unfold bsmMCPrice bsmMCPriceList mcMean
  simp only [List.map_cons, List.map_nil]
  rw [show mHalf.n_path = 1 from rfl, show mHalf.intr = 0 from rfl,
    Finset.sum_range_one, hT, sub_zero, one_mul,
    max_eq_left (Real.exp_pos _).le]
  norm_num

/-- C4 amended: for `0 < beta < 1`, `base_model` raises the
unsupported-parameter error; both conditional pricing calls therefore fail
(with this error, or earlier with a `ZeroDivisionError`), while the direct
pricing calls never consult `beta` and return normally. -/
theorem beta_mid_unsupported (normK bsmK : Kernel) (m : Model)
    (strike : List ℝ) (spot texp cp : ℝ) (W Z Z' : ℕ → ℕ → ℝ)
    (h0 : 0 < m.beta) (h1 : m.beta < 1) :
    base_model normK bsmK m = .error "0<beta<1 not supported"
    ∧ (∃ e, bsmCondPrice normK bsmK m strike spot texp cp Z = .error e)
    ∧ (∃ e, normalCondPrice normK bsmK m strike spot texp cp Z = .error e)
    ∧ bsmMCPrice m strike spot texp cp W Z'
        = .ok (bsmMCPriceList m strike spot texp cp W Z')
    ∧ normalMCPrice m strike spot texp cp W Z'
        = .ok (normalMCPriceList m strike spot texp cp W Z') := by
  have hbm := base_model_mid_beta normK bsmK h0 h1
  refine ⟨hbm, ?_, ?_, rfl, rfl⟩
  · by_cases hn : nSteps m.dt texp = 0
    · have hp : sigma_path m texp Z
          = .error "ZeroDivisionError: float division by zero" := by
        unfold sigma_path
        rw [if_pos hn]
      exact ⟨_, bsmCondPrice_path_error normK bsmK hp strike spot cp⟩
    · by_cases hv : m.vov = 0
      · have hdv : pyDiv m.rho m.vov
            = .error "ZeroDivisionError: float division by zero" := by
          rw [hv]
          exact pyDiv_zero m.rho
        exact ⟨_, bsmCondPrice_div_error normK bsmK (sigma_path_ok m texp Z hn)
          hdv strike spot cp⟩
      · exact ⟨_, bsmCondPrice_base_error normK bsmK (sigma_path_ok m texp Z hn)
          (pyDiv_ok hv) hbm strike spot cp⟩
  · by_cases hn : nSteps m.dt texp = 0
    · have hp : sigma_path m texp Z
          = .error "ZeroDivisionError: float division by zero" := by
        unfold sigma_path
        rw [if_pos hn]
      exact ⟨_, normalCondPrice_path_error normK bsmK hp strike spot cp⟩
    · by_cases hv : m.vov = 0
      · have hdv : pyDiv m.rho m.vov
            = .error "ZeroDivisionError: float division by zero" := by
          rw [hv]
          exact pyDiv_zero m.rho
        exact ⟨_, normalCondPrice_div_error normK bsmK (sigma_path_ok m texp Z hn)
          hdv strike spot cp⟩
      · exact ⟨_, normalCondPrice_base_error normK bsmK (sigma_path_ok m texp Z hn)
          (pyDiv_ok hv) hbm strike spot cp⟩

/-- Witness for the amended C4 at `beta = 1/2`. -/
theorem beta_mid_unsupported_witness :
    0 < mHalf.beta ∧ mHalf.beta < 1
    ∧ base_model zeroKernel zeroKernel mHalf = .error "0<beta<1 not supported" :=
  ⟨one_half_pos, one_half_lt_one,
    (beta_mid_unsupported zeroKernel zeroKernel mHalf [] 1 1 1 zeroDraws zeroDraws
      zeroDraws one_half_pos one_half_lt_one).1⟩

/-- Model used to evaluate the `texp = 0` behaviour of the direct pricers. -/
def mT0 : Model :=
  { sigma := 1, vov := 0, rho := 0, beta := 1, intr := 0, dt := 1/10, n_path := 1 }

/-- C5 evaluation: at `texp = 0` both direct MC pricing calls return
normally (the ceiling gives `n_dt = 0`, the simulation loop is empty, and the
pricer returns the undiscounted intrinsic payoff `max(spot - strike, 0)`)
instead of failing with an invalid-argument error. -/
theorem directMC_texp_zero_returns_price :
    bsmMCPrice mT0 [0] 1 0 1 zeroDraws zeroDraws = .ok [1]
    ∧ normalMCPrice mT0 [0] 1 0 1 zeroDraws zeroDraws = .ok [1] := by
  have hstep : nSteps ((1:ℝ)/10) 0 = 0 := by
    unfold nSteps
    norm_num
  constructor
  · have hT : bsmTerminalSpot mT0 1 0 zeroDraws zeroDraws 0 = 1 := by
      unfold bsmTerminalSpot
      rw [show mT0.dt = (1:ℝ)/10 from rfl, hstep]
      simp [Real.log_one]
    unfold bsmMCPrice bsmMCPriceList mcMean
    simp only [List.map_cons, List.map_nil]
    rw [show mT0.n_path = 1 from rfl, show mT0.intr = (0:ℝ) from rfl,
      Finset.sum_range_one, hT, sub_zero, one_mul, max_eq_left zero_le_one]
    norm_num
  · have hT : normalTerminalSpot mT0 1 0 zeroDraws zeroDraws 0 = 1 := by
      unfold normalTerminalSpot
      rw [show mT0.dt = (1:ℝ)/10 from rfl, hstep]
      simp
    unfold normalMCPrice normalMCPriceList mcMean
    simp only [List.map_cons, List.map_nil]
    rw [show mT0.n_path = 1 from rfl, show mT0.intr = (0:ℝ) from rfl,
      Finset.sum_range_one, hT, sub_zero, one_mul, max_eq_left zero_le_one]
    norm_num

/-- Direct-pricer model with `vov = 0` for the step-size evaluation. -/
def mC2 : Model :=
  { sigma := 1, vov := 0, rho := 0, beta := 1, intr := 0, dt := 1/10, n_path := 1 }

/-- Direct-pricer model with `vov = 1` for the step-size evaluation. -/
def mC2v : Model :=
  { sigma := 1, vov := 1, rho := 0, beta := 1, intr := 0, dt := 1/10, n_path := 1 }

/-- C2 evaluation: with `T = 3/20` and nominal `Δt = 1/10` the effective
step is `T/⌈T/Δt⌉ = 3/40`, but the direct MC pricers scale the spot
increments by `sqrt(1/10)` (nominal), apply the Itô correction with the
nominal `1/10`, and scale the volatility increments by `sqrt(1/10)` — in each
case a value different from the effective-step one. -/
theorem directMC_nominal_step :
    (3:ℝ)/20 / (nSteps ((1:ℝ)/10) (3/20) : ℝ) = 3/40
    ∧ normalTerminalSpot mC2 0 (3/20) (fun _ _ => 1) zeroDraws 0
        = 2 * Real.sqrt (1/10)
    ∧ 2 * Real.sqrt ((1:ℝ)/10) ≠ 2 * Real.sqrt (3/40)
    ∧ bsmTerminalSpot mC2 1 (3/20) zeroDraws zeroDraws 0 = Real.exp (-(1/10))
    ∧ Real.exp (-((1:ℝ)/10)) ≠ Real.exp (-(3/40))
    ∧ mcSigma mC2v (3/20) (fun _ _ => 1) 1 0 = Real.exp (Real.sqrt (1/10) - 3/80)
    ∧ Real.exp (Real.sqrt ((1:ℝ)/10) - 3/80)
        ≠ Real.exp (Real.sqrt (3/40) - 3/80) := by
  have hstep : nSteps ((1:ℝ)/10) (3/20) = 2 := by
    unfold nSteps
    have hc : (⌈(3:ℝ)/20 / (1/10)⌉ : ℤ) = 2 := by
      rw [show (3:ℝ)/20 / (1/10) = 3/2 by norm_num, Int.ceil_eq_iff]
      norm_num
    rw [hc]
    rfl
  have hsq : Real.sqrt ((3:ℝ)/40) < Real.sqrt (1/10) :=
    Real.sqrt_lt_sqrt (by norm_num) (by norm_num)
  refine ⟨by rw [hstep]; norm_num, ?_, ?_, ?_, ?_, ?_, ?_⟩
  · unfold normalTerminalSpot mcSigma corrNoise
    rw [show mC2.dt = (1:ℝ)/10 from rfl, hstep]
    norm_num [mC2, zeroDraws, Finset.sum_range_succ, Finset.sum_range_one,
      Real.sqrt_one, Real.exp_zero]
  · exact ne_of_gt (by linarith)
  · unfold bsmTerminalSpot mcSigma corrNoise
    rw [show mC2.dt = (1:ℝ)/10 from rfl, hstep]
    norm_num [mC2, zeroDraws, Finset.sum_range_succ, Finset.sum_range_one,
      Real.sqrt_one, Real.exp_zero, Real.log_one]
  · exact ne_of_lt (Real.exp_lt_exp.mpr (by norm_num))
  · unfold mcSigma cumNoise tobs
    rw [show mC2v.dt = (1:ℝ)/10 from rfl, hstep]
    norm_num [mC2v, Finset.sum_range_one]
  · exact ne_of_gt (Real.exp_lt_exp.mpr (by linarith))

/-- Kernel projecting the spot argument, used to observe `spot_equiv`. -/
def spotKernel : Kernel := fun _ _ sp _ _ => sp

/-- Model for observing the normal conditional equivalent spot of the normal conditional pricer:
`sigma = 1/5`, `vov = 1`, `rho = 1/2`, `beta = 0`. -/
def mC1 : Model :=
  { sigma := 1/5, vov := 1, rho := 1/2, beta := 0, intr := 0, dt := 1, n_path := 1 }

/-- C1 evaluation: with a single step whose draw puts the normalized
terminal volatility at `e = exp 1`, `ModelNormalCondMC` computes
`spot_equiv = spot + (rho/vov) * (e - 1)` from the *normalized* path values;
the claimed un-normalized formula would give
`spot + (rho/vov) * (sigma * e - sigma * 1)`, a different number. -/
theorem normalCondMC_spot_equiv_unscaled :
    normalCondPrice spotKernel zeroKernel mC1 [0] 1 1 1 (fun _ _ => 3/2)
      = .ok [1 + mC1.rho / mC1.vov * (Real.exp 1 - 1)]
    ∧ 1 + mC1.rho / mC1.vov * (Real.exp 1 - 1)
      ≠ 1 + mC1.rho / mC1.vov * (mC1.sigma * Real.exp 1 - mC1.sigma * 1) := by
  have hstep : nSteps ((1:ℝ)) 1 = 1 := by
    unfold nSteps
    norm_num
  have hdt : mC1.dt = (1:ℝ) := rfl
  have hn : nSteps mC1.dt 1 ≠ 0 := by
    rw [hdt, hstep]
    decide
  constructor
  · have hT : entryAt (sigmaPathList mC1 1 (fun _ _ => 3/2)) 1 0 = Real.exp 1 := by
      rw [entryAt_sigmaPathList mC1 1 (fun _ _ => 3/2) (by rw [hdt, hstep]; omega)
        (by rw [show mC1.n_path = 1 from rfl]; omega)]
      unfold sigmaPathEntry cumNoise tobs
      rw [hdt, hstep]
      norm_num [show mC1.vov = (1:ℝ) from rfl, Finset.sum_range_one, Real.sqrt_one]
    have h0 : entryAt (sigmaPathList mC1 1 (fun _ _ => 3/2)) 0 0 = 1 := by
      rw [entryAt_sigmaPathList mC1 1 (fun _ _ => 3/2) (by omega)
        (by rw [show mC1.n_path = 1 from rfl]; omega)]
      unfold sigmaPathEntry
      rw [if_pos rfl]
    have hlen : (sigmaPathList mC1 1 (fun _ _ => 3/2)).length - 1 = 1 := by
      rw [sigmaPathList_length, hdt, hstep]
    rw [normalCondPrice_eq_ok spotKernel zeroKernel
      (sigma_path_ok mC1 1 (fun _ _ => 3/2) hn)
      (pyDiv_ok (show mC1.vov ≠ 0 by rw [show mC1.vov = (1:ℝ) from rfl]; exact one_ne_zero))
      (base_model_beta_zero spotKernel zeroKernel rfl) [0] 1 1]
    unfold mcMean
    simp only [List.map_cons, List.map_nil, show mC1.n_path = 1 from rfl,
      Finset.sum_range_one, spotKernel]
    rw [hlen, hT, h0]
    norm_num
  · intro h
    have he : (2:ℝ) ≤ Real.exp 1 := by
      have h1 := Real.add_one_le_exp 1
      linarith
    rw [show mC1.rho = (1:ℝ)/2 from rfl, show mC1.vov = (1:ℝ) from rfl,
      show mC1.sigma = (1:ℝ)/5 from rfl] at h
    norm_num at h
    linarith

end

end SabrMC
